import Mathlib

/-!
# Verification of the flash-device extraction core of `soul-composer`

Shallow embedding of `src/prog/arm/flash_device.rs` (the Segment Resolver
`FlashDevice::read_elf_bin_data`, the Sector Table Reader
`FlashDevice::parse_sectors`, and the Device Record Decoder
`FlashDevice::new`), together with theorems settling the frozen claims
about this code.

Modelling conventions:
* `u32` values are `Nat` with an explicit `% U32` (`U32 = 2^32`) wherever the
  Rust source performs 32-bit arithmetic (`as u32` casts, `u32` additions),
  i.e. release-mode wrapping semantics.
* A byte buffer `&[u8]` is a `List Nat` of byte values.
* A Rust slice-indexing panic (`&buffer[start..][..size]` out of bounds, or a
  failing `pread`/`unwrap`) is modelled as `Except.error ()` respectively the
  `RunResult.panic` outcome; `Option` keeps its Rust meaning.
* The unbounded `while` loop of `parse_sectors` is modelled with explicit
  fuel: `RunResult.out_of_fuel` marks that the given fuel was exhausted, so
  "the loop terminates" is "some fuel suffices".
-/

set_option maxRecDepth 100000

deriving instance DecidableEq for Except

/-- `2^32`, the modulus of Rust `u32` arithmetic. -/
def U32 : Nat := 4294967296

/-- One entry of `elf.program_headers` as consumed by `read_elf_bin_data`.
`goblin` exposes these as `u64` fields; the Rust code truncates them with
`as u32` at its use sites, which the accessors below reproduce. -/
structure ProgramHeader where
  p_paddr : Nat
  p_offset : Nat
  p_filesz : Nat
  p_memsz : Nat
deriving DecidableEq

/-- `let segment_address = ph.p_paddr as u32` (flash_device.rs line 131). -/
def segAddr (ph : ProgramHeader) : Nat := ph.p_paddr % U32

/-- `let segment_size = ph.p_memsz.min(ph.p_filesz) as u32` (line 132). -/
def effSize (ph : ProgramHeader) : Nat := (min ph.p_memsz ph.p_filesz) % U32

/-- `ph.p_offset as u32` (line 149). -/
def fileOff (ph : ProgramHeader) : Nat := ph.p_offset % U32

/-- `FlashDevice::read_elf_bin_data` (flash_device.rs lines 123-155), the
Segment Resolver.  The `for` loop over `elf.program_headers` becomes
recursion over the list; `Except.error ()` models the panic of
`&buffer[start as usize..][..size as usize]` when the computed window is not
inside the buffer; `.ok none` is the Rust `None`. -/
def read_elf_bin_data (phs : List ProgramHeader) (buffer : List Nat)
    (address size : Nat) : Except Unit (Option (List Nat)) :=
  match phs with
  | [] => .ok none
  | ph :: rest =>
    -- "If the requested data is above the current segment, skip the segment."
    if address > (segAddr ph + effSize ph) % U32 then
      read_elf_bin_data rest buffer address size
    -- "If the requested data is below the current segment, skip the segment."
    else if (address + size) % U32 ≤ segAddr ph then
      read_elf_bin_data rest buffer address size
    -- "If the requested data chunk is fully contained in the segment, ..."
    else if segAddr ph ≤ address ∧
        (address + size) % U32 ≤ (segAddr ph + effSize ph) % U32 then
      if (fileOff ph + address - segAddr ph) % U32 + size ≤ buffer.length then
        .ok (some ((buffer.drop ((fileOff ph + address - segAddr ph) % U32)).take size))
      else
        .error ()
    else
      read_elf_bin_data rest buffer address size

/-- A struct to describe one sector in Flash (flash_device.rs lines 6-10). -/
structure SectorInfo where
  address : Nat
  size : Nat
deriving DecidableEq

/-- `SectorInfo::SECTOR_END = 0xFFFF_FFFF` (line 14). -/
def SECTOR_END : Nat := 4294967295

/-- `data.pread::<u32>(off)`: little-endian `u32` at byte offset `off`;
`none` models the failure the Rust code would `unwrap` (a panic). -/
def readU32LE (data : List Nat) (off : Nat) : Option Nat :=
  if off + 4 ≤ data.length then
    some (data.getD off 0 + data.getD (off + 1) 0 * 256 +
      data.getD (off + 2) 0 * 65536 + data.getD (off + 3) 0 * 16777216)
  else none

/-- `data.pread::<u16>(off)`: little-endian `u16` at byte offset `off`. -/
def readU16LE (data : List Nat) (off : Nat) : Option Nat :=
  if off + 2 ≤ data.length then
    some (data.getD off 0 + data.getD (off + 1) 0 * 256)
  else none

/-- `data.pread::<u8>(off)`. -/
def readU8 (data : List Nat) (off : Nat) : Option Nat :=
  if off + 1 ≤ data.length then some (data.getD off 0) else none

/-- `SectorInfo::new` (flash_device.rs lines 17-25).  `Except.error ()`
models the `unwrap` panic when `data` is shorter than 8 bytes (never hit by
the call site, which always passes an 8-byte window); `.ok none` is the
Rust `None` (terminator found). -/
def SectorInfo.new (data : List Nat) : Except Unit (Option SectorInfo) :=
  match readU32LE data 0, readU32LE data 4 with
  | some size, some address =>
    if size ≠ SECTOR_END ∧ address ≠ SECTOR_END then
      .ok (some ⟨address, size⟩)
    else
      .ok none
  | _, _ => .error ()

/-- Outcome of running a fuel-bounded loop: the fuel ran out, the program
panicked, or a value was returned. -/
inductive RunResult (α : Type) where
  | out_of_fuel
  | panic
  | ret (a : α)
deriving DecidableEq

/-- The `while let` loop of `FlashDevice::parse_sectors` (flash_device.rs
lines 106-118), fuel-indexed.  `offset` starts at `INFO_SIZE = 160` and the
`offset += 8` update wraps at `u32` like the Rust source. -/
def parseSectorsAux (phs : List ProgramHeader) (buffer : List Nat)
    (address : Nat) : Nat → Nat → List SectorInfo → RunResult (List SectorInfo)
  | 0, _, _ => .out_of_fuel
  | fuel + 1, offset, acc =>
    match read_elf_bin_data phs buffer ((address + offset) % U32) 8 with
    | .error _ => .panic
    | .ok none => .ret acc
    | .ok (some data) =>
      match SectorInfo.new data with
      | .error _ => .panic
      | .ok none => .ret acc
      | .ok (some s) => parseSectorsAux phs buffer address fuel ((offset + 8) % U32) (acc ++ [s])

/-- `FlashDevice::parse_sectors` (flash_device.rs lines 101-121) with the
given amount of fuel for its unbounded loop. -/
def parseSectorsFuel (phs : List ProgramHeader) (buffer : List Nat)
    (address fuel : Nat) : RunResult (List SectorInfo) :=
  parseSectorsAux phs buffer address fuel 160 []

/-- One iteration of the sector loop viewed as a function: `some s` when the
iteration resolves the 8-byte window at `address + offset` and decodes a
non-terminator sector (so the loop continues), `none` when the iteration
stops the loop (unresolvable window, terminator, or panic). -/
def sectorStep (phs : List ProgramHeader) (buffer : List Nat)
    (address offset : Nat) : Option SectorInfo :=
  match read_elf_bin_data phs buffer ((address + offset) % U32) 8 with
  | .ok (some data) =>
    match SectorInfo.new data with
    | .ok (some s) => some s
    | _ => none
  | _ => none

/-- Is `b` a UTF-8 continuation byte (`0x80..=0xBF`)? -/
def isCont (b : Nat) : Bool := 128 ≤ b && b ≤ 191

/-- Admissible second byte of a three-byte UTF-8 sequence with lead `b`
(`0xE0` requires `0xA0..=0xBF`, `0xED` excludes surrogates). -/
def cont3ok (b c1 : Nat) : Bool :=
  if b = 224 then 160 ≤ c1 && c1 ≤ 191
  else if b = 237 then 128 ≤ c1 && c1 ≤ 159
  else isCont c1

/-- Admissible second byte of a four-byte UTF-8 sequence with lead `b`
(`0xF0` requires `0x90..=0xBF`, `0xF4` caps at `0x8F`). -/
def cont4ok (b c1 : Nat) : Bool :=
  if b = 240 then 144 ≤ c1 && c1 ≤ 191
  else if b = 244 then 128 ≤ c1 && c1 ≤ 143
  else isCont c1

/-- Decode one UTF-8 scalar (or one maximal invalid subpart) from the front
of `bs`, as `String::from_utf8_lossy` does: the result is the code point
(`0xFFFD` on any invalid or incomplete sequence) paired with the number of
bytes consumed (the length of the valid sequence, or of the maximal valid
prefix of an invalid one, always at least 1). -/
def utf8DecodeOne (bs : List Nat) : Nat × Nat :=
  match bs with
  | [] => (65533, 1)
  | b :: rest =>
    if b < 128 then (b, 1)
    else if b < 194 then (65533, 1)
    else if b < 224 then
      match rest with
      | c1 :: _ => if isCont c1 then ((b - 192) * 64 + (c1 - 128), 2) else (65533, 1)
      | [] => (65533, 1)
    else if b < 240 then
      match rest with
      | c1 :: rest1 =>
        if cont3ok b c1 then
          match rest1 with
          | c2 :: _ =>
            if isCont c2 then
              ((b - 224) * 4096 + (c1 - 128) * 64 + (c2 - 128), 3)
            else (65533, 2)
          | [] => (65533, 2)
        else (65533, 1)
      | [] => (65533, 1)
    else if b < 245 then
      match rest with
      | c1 :: rest1 =>
        if cont4ok b c1 then
          match rest1 with
          | c2 :: rest2 =>
            if isCont c2 then
              match rest2 with
              | c3 :: _ =>
                if isCont c3 then
                  ((b - 240) * 262144 + (c1 - 128) * 4096 + (c2 - 128) * 64 + (c3 - 128), 4)
                else (65533, 3)
              | [] => (65533, 3)
            else (65533, 2)
          | [] => (65533, 2)
        else (65533, 1)
      | [] => (65533, 1)
    else (65533, 1)

/-- Fuel-indexed UTF-8 lossy decoding to a list of code points; with fuel at
least `bs.length` this is `String::from_utf8_lossy` on the byte list `bs`
(each step consumes at least one byte). -/
def utf8LossyFuel : Nat → List Nat → List Nat
  | 0, _ => []
  | _ + 1, [] => []
  | fuel + 1, b :: rest =>
    (utf8DecodeOne (b :: rest)).1 ::
      utf8LossyFuel fuel ((b :: rest).drop (utf8DecodeOne (b :: rest)).2)

/-- `String::from_utf8_lossy(bs)` as a list of code points. -/
def utf8Lossy (bs : List Nat) : List Nat := utf8LossyFuel bs.length bs

/-- `String::from_utf8_lossy(bs).to_string()`: the decoded code points as a
Lean `String`. -/
def lossyString (bs : List Nat) : String :=
  String.mk ((utf8Lossy bs).map Char.ofNat)

/-- The decoded `FlashDevice` record (flash_device.rs lines 36-59). -/
structure FlashDevice where
  driver_version : Nat
  name : String
  typ : Nat
  start_address : Nat
  device_size : Nat
  page_size : Nat
  _reserved : Nat
  erased_default_value : Nat
  program_page_timeout : Nat
  erase_sector_timeout : Nat
  sectors : List SectorInfo
deriving DecidableEq

/-- Modelled from the spec: the error enum of `src/prog/arm/arm_error.rs`
(imported as `super::arm_error::ArmError` by flash_device.rs) is not part of
the provided sources; the spec describes its only relevant constructor as "a
`ReadBinaryInfoFail` condition carrying the requested address and size", and
the call site in `FlashDevice::new` shows a single `String` payload. -/
inductive ArmError where
  | ReadBinaryInfoFail (msg : String)
deriving DecidableEq

/-- Rust `format!("{:#010x}", n)` for a `u32` value: `0x` followed by the
lowercase hexadecimal digits zero-padded to width 8. -/
def hex8 (n : Nat) : String :=
  let ds := Nat.toDigits 16 n
  "0x" ++ String.mk (List.replicate (8 - ds.length) '0' ++ ds)

/-- The message built at flash_device.rs line 74:
`format!("Read address: {:#010x}, size: {} bytes", address, Self::INFO_SIZE)`. -/
def readFailMsg (address : Nat) : String :=
  "Read address: " ++ hex8 address ++ ", size: 160 bytes"

/-- `hypothetical_length`/`sanitized_length` (flash_device.rs lines 78-82):
scan `data[2..130]` for the first zero byte; the name length is that
position, or 128 when absent, capped at 128. -/
def nameLength (data : List Nat) : Nat :=
  min 128 ((((data.drop 2).take 128).findIdx? (fun c => c == 0)).getD 128)

/-- `String::from_utf8_lossy(&data[2..2 + sanitized_length]).to_string()`
(flash_device.rs line 87). -/
def decodeName (data : List Nat) : String :=
  lossyString ((data.drop 2).take (nameLength data))

/-- The struct-literal decode of `FlashDevice::new` (flash_device.rs lines
85-97): the fixed-offset `pread` calls plus the name decode.  `none` models
the panics of `data[2..130]` slicing / `pread(...).unwrap()` on a window
shorter than 160 bytes (never hit: the resolved window has exactly 160
bytes). -/
def decodeFields (data : List Nat) (sectors : List SectorInfo) :
    Option FlashDevice :=
  if 130 ≤ data.length then
    match readU16LE data 0, readU16LE data 130, readU32LE data 132,
        readU32LE data 136, readU32LE data 140, readU32LE data 144,
        readU8 data 148, readU32LE data 152, readU32LE data 156 with
    | some dv, some ty, some sa, some ds, some ps, some rv, some ev,
        some pt, some et =>
      some ⟨dv, decodeName data, ty, sa, ds, ps, rv, ev, pt, et, sectors⟩
    | _, _, _, _, _, _, _, _, _ => none
  else none

/-- `FlashDevice::new` (flash_device.rs lines 67-98), fuel-indexed for the
sector loop it runs first: parse the sectors, resolve the 160-byte header
window at `address`, fail with `ReadBinaryInfoFail` when it cannot be
resolved, otherwise decode the fixed fields. -/
def newFuel (phs : List ProgramHeader) (buffer : List Nat)
    (address fuel : Nat) : RunResult (Except ArmError FlashDevice) :=
  match parseSectorsFuel phs buffer address fuel with
  | .out_of_fuel => .out_of_fuel
  | .panic => .panic
  | .ret sectors =>
    match read_elf_bin_data phs buffer address 160 with
    | .error _ => .panic
    | .ok none => .ret (.error (.ReadBinaryInfoFail (readFailMsg address)))
    | .ok (some data) =>
      match decodeFields data sectors with
      | some d => .ret (.ok d)
      | none => .panic

/-- Mathematical (non-wrapping) containment of the requested range
`[address, address + size)` in a segment's `[segAddr, segAddr + effSize)`,
the notion the spec's Segment Resolver contract is phrased in. -/
def mathContains (ph : ProgramHeader) (address size : Nat) : Prop :=
  segAddr ph ≤ address ∧ address + size ≤ segAddr ph + effSize ph

instance (ph : ProgramHeader) (address size : Nat) :
    Decidable (mathContains ph address size) := by
  unfold mathContains; infer_instance

/-- The 176-byte image of the spec's `ACME_FLASH` example: a 160-byte header
(`driver_version = 1`, name `"ACME_FLASH"` NUL-padded to 128 bytes,
`start_address = 0x0800_0000`, `device_size = 0x0002_0000`,
`page_size = 0x400`, `erased_default_value = 0xFF`), one sector entry
`{size: 0x400, address: 0x0800_0000}` and the terminator entry. -/
def acmeBuf : List Nat :=
  [1, 0] ++
  [65, 67, 77, 69, 95, 70, 76, 65, 83, 72] ++ List.replicate 118 0 ++
  [0, 0] ++
  [0, 0, 0, 8] ++
  [0, 0, 2, 0] ++
  [0, 4, 0, 0] ++
  [0, 0, 0, 0] ++
  [255, 0, 0, 0] ++
  [0, 0, 0, 0] ++
  [0, 0, 0, 0] ++
  [0, 4, 0, 0] ++
  [0, 0, 0, 8] ++
  List.replicate 8 255

/-- A single synthetic segment mapping addresses `[0, 176)` to the whole of
`acmeBuf`. -/
def acmeSegs : List ProgramHeader := [⟨0, 0, 176, 176⟩]

/-- The `FlashDevice` record decoded from `acmeBuf` at base address 0. -/
def acmeDevice : FlashDevice :=
  ⟨1, "ACME_FLASH", 0, 134217728, 131072, 1024, 0, 255, 0, 0,
    [⟨134217728, 1024⟩]⟩

/-- One segment mapping `[0, 168)` to a buffer whose single sector entry has
`size = 0xFFFFFFFF` but `address = 0` (only one of the two fields is the
sentinel). -/
def c1Segs : List ProgramHeader := [⟨0, 0, 168, 168⟩]

/-- 160 header bytes followed by the sector entry
`size = 0xFFFFFFFF, address = 0`. -/
def c1Buf : List Nat := List.replicate 160 0 ++ [255, 255, 255, 255, 0, 0, 0, 0]

/-- A segment covering only the first sector window `[160, 168)` and mapping
it to file offset 100 — far beyond an empty buffer, so resolving the sector
window panics while the 160-byte header window is unresolvable. -/
def c2Segs : List ProgramHeader := [⟨160, 100, 8, 8⟩]

/-- One segment mapping `[0, 168)`; the buffer puts the double-sentinel
terminator immediately at offset 160 (a zero-entry sector table). -/
def sentSegs : List ProgramHeader := [⟨0, 0, 168, 168⟩]

/-- 160 header bytes followed immediately by the
`{0xFFFFFFFF, 0xFFFFFFFF}` terminator. -/
def sentBuf : List Nat := List.replicate 160 0 ++ List.replicate 8 255

/-- A segment whose `segment_address + segment_size` (`0xFFFFFFF0 + 32`)
overflows `u32`, so the code's first skip test wraps. -/
def c3Ph : ProgramHeader := ⟨4294967280, 0, 32, 32⟩

/-- A segment of the maximal `u32` size `0xFFFFFFFF` based at address 0. -/
def c4Ph : ProgramHeader := ⟨0, 0, 4294967295, 4294967295⟩

/-- A `2^32 + 2`-byte backing buffer of zeros. -/
def c4Buf : List Nat := List.replicate 4294967298 0

/-- A 160-byte header window whose 128 name bytes are 64 copies of the
two-byte UTF-8 sequence `C2 A0` (U+00A0), with no zero byte. -/
def c6Data : List Nat :=
  [0, 0] ++ (List.replicate 64 0).flatMap (fun _ => [194, 160]) ++
    List.replicate 30 0

/-- A 160-byte header window whose 128 name bytes are all `0xFF` (each an
invalid byte decoded to one replacement character), with no zero byte. -/
def c6FFData : List Nat :=
  [0, 0] ++ List.replicate 128 255 ++ List.replicate 30 0

/-- A `2^32 + 8`-byte buffer of zeros backing `c4Ph`: every 8-byte window
the sector loop can ever request resolves to zero bytes, so the loop never
stops. -/
def c8Buf : List Nat := List.replicate 4294967304 0

/-- Every decoding step consumes at least one byte. -/
theorem utf8DecodeOne_pos (bs : List Nat) : 1 ≤ (utf8DecodeOne bs).2 := by
  rcases bs with _ | ⟨b, _ | ⟨c1, _ | ⟨c2, _ | ⟨c3, rest⟩⟩⟩⟩ <;>
    simp only [utf8DecodeOne] <;>
    repeat first
      | omega
      | split

/-- Lossy decoding never yields more code points than input bytes. -/
theorem utf8LossyFuel_length_le (fuel : Nat) :
    ∀ bs : List Nat, (utf8LossyFuel fuel bs).length ≤ bs.length := by
  induction fuel with
  | zero => intro bs; simp [utf8LossyFuel]
  | succ fuel ih =>
    intro bs
    match bs with
    | [] => simp [utf8LossyFuel]
    | b :: rest =>
      have hpos := utf8DecodeOne_pos (b :: rest)
      have hrec := ih ((b :: rest).drop (utf8DecodeOne (b :: rest)).2)
      simp only [utf8LossyFuel, List.length_cons]
      have hdrop : ((b :: rest).drop (utf8DecodeOne (b :: rest)).2).length =
          (b :: rest).length - (utf8DecodeOne (b :: rest)).2 := List.length_drop _ _
      simp only [List.length_cons] at hdrop
      omega

/-- `getD` on a replicated list inside its bounds. -/
theorem getD_replicate_of_lt {a d : Nat} :
    ∀ {n i : Nat}, i < n → (List.replicate n a).getD i d = a := by
  intro n
  induction n with
  | zero => intro i h; omega
  | succ n ih =>
    intro i h
    match i with
    | 0 => simp [List.replicate_succ]
    | j + 1 =>
      simp only [List.replicate_succ, List.getD_cons_succ]
      exact ih (by omega)

/-- Whatever window the Segment Resolver returns is a contiguous in-bounds
slice of the backing buffer of exactly the requested length. -/
theorem read_some_shape (phs : List ProgramHeader) (buffer : List Nat)
    (address size : Nat) (w : List Nat)
    (h : read_elf_bin_data phs buffer address size = .ok (some w)) :
    ∃ st, st + size ≤ buffer.length ∧ w = (buffer.drop st).take size ∧
      w.length = size := by
  induction phs with
  | nil => simp [read_elf_bin_data] at h
  | cons ph rest ih =>
    rw [read_elf_bin_data] at h
    split at h
    · exact ih h
    · split at h
      · exact ih h
      · split at h
        · split at h
          · rename_i hbound
            refine ⟨(fileOff ph + address - segAddr ph) % U32, hbound, ?_, ?_⟩
            · exact (Option.some.injEq _ _ ▸ (Except.ok.injEq _ _ ▸ h).symm).symm ▸ rfl
            · have := (Except.ok.injEq _ _ ▸ h)
              have hw : w = (buffer.drop ((fileOff ph + address - segAddr ph) % U32)).take size := by
                injection h with h1
                injection h1 with h2
                exact h2.symm
              rw [hw, List.length_take, List.length_drop]
              omega
          · exact absurd h (by simp)
        · exact ih h

/-- Under in-buffer segment windows and a non-overflowing request, the
Segment Resolver never panics: the slice taken in its containment branch is
always inside the buffer. -/
theorem read_no_error (phs : List ProgramHeader) (buffer : List Nat)
    (address size : Nat)
    (hwf : ∀ ph ∈ phs, fileOff ph + effSize ph ≤ buffer.length)
    (hsum : address + size ≤ U32) :
    read_elf_bin_data phs buffer address size ≠ .error () := by
  induction phs with
  | nil => simp [read_elf_bin_data]
  | cons ph rest ih =>
    have hph := hwf ph (by simp)
    have hrest : ∀ q ∈ rest, fileOff q + effSize q ≤ buffer.length :=
      fun q hq => hwf q (List.mem_cons_of_mem _ hq)
    rw [read_elf_bin_data]
    split
    · exact ih hrest
    · split
      · exact ih hrest
      · split
        · rename_i hskip2 hcont
          -- in the containment branch the slice is in bounds
          push_neg at hskip2
          obtain ⟨hge, hle⟩ := hcont
          have hmod : (address + size) % U32 = address + size := by
            rcases Nat.lt_or_ge (address + size) U32 with hlt | hge2
            · exact Nat.mod_eq_of_lt hlt
            · have : address + size = U32 := by omega
              rw [this] at hskip2
              simp [Nat.mod_self] at hskip2
          rw [hmod] at hle
          have hle2 : address + size ≤ segAddr ph + effSize ph :=
            le_trans hle (Nat.mod_le _ _)
          have hstart : (fileOff ph + address - segAddr ph) % U32 + size ≤
              buffer.length := by
            have h1 : (fileOff ph + address - segAddr ph) % U32 ≤
                fileOff ph + address - segAddr ph := Nat.mod_le _ _
            omega
          rw [if_pos hstart]
          simp
        · exact ih hrest

/-- A sector emitted by `SectorInfo::new` has neither field equal to the
sentinel. -/
theorem SectorInfo.new_ok_some (data : List Nat) (s : SectorInfo)
    (h : SectorInfo.new data = .ok (some s)) :
    s.size ≠ SECTOR_END ∧ s.address ≠ SECTOR_END := by
  rw [SectorInfo.new] at h
  split at h
  · rename_i size address heq1 heq2
    split at h
    · rename_i hcond
      injection h with h1
      injection h1 with h2
      subst h2
      exact ⟨hcond.1, hcond.2⟩
    · exact absurd h (by simp)
  · exact absurd h (by simp)

/-- The decoded fields of `SectorInfo::new`: an emitted sector carries the
little-endian `u32` at byte 4 as `address` and the one at byte 0 as `size`. -/
theorem SectorInfo.new_eq (data : List Nat) (size address : Nat)
    (h0 : readU32LE data 0 = some size) (h4 : readU32LE data 4 = some address) :
    SectorInfo.new data =
      if size ≠ SECTOR_END ∧ address ≠ SECTOR_END then .ok (some ⟨address, size⟩)
      else .ok none := by
  rw [SectorInfo.new, h0, h4]

/-- On an 8-byte window `SectorInfo::new` never panics. -/
theorem SectorInfo.new_no_error (data : List Nat) (h : data.length = 8) :
    SectorInfo.new data ≠ .error () := by
  simp only [SectorInfo.new, readU32LE, h]
  norm_num
  split <;> simp

/-- Sectors accumulated by the `parse_sectors` loop all satisfy a property
preserved by emission. -/
theorem parseSectorsAux_ret_inv (phs : List ProgramHeader) (buffer : List Nat)
    (address : Nat) :
    ∀ (fuel offset : Nat) (acc l : List SectorInfo),
      parseSectorsAux phs buffer address fuel offset acc = .ret l →
      (∀ s ∈ acc, s.size ≠ SECTOR_END ∧ s.address ≠ SECTOR_END) →
      ∀ s ∈ l, s.size ≠ SECTOR_END ∧ s.address ≠ SECTOR_END := by
  intro fuel
  induction fuel with
  | zero =>
    intro offset acc l h hacc
    exact absurd h (by simp [parseSectorsAux])
  | succ fuel ih =>
    intro offset acc l h hacc
    rw [parseSectorsAux] at h
    split at h
    · exact absurd h (by simp)
    · injection h with h1
      subst h1
      exact hacc
    · split at h
      · exact absurd h (by simp)
      · injection h with h1
        subst h1
        exact hacc
      · rename_i hnew
        refine ih _ _ _ h ?_
        intro t ht
        rcases List.mem_append.mp ht with hin | hin
        · exact hacc t hin
        · have hts := List.mem_singleton.mp hin
          subst hts
          exact SectorInfo.new_ok_some _ _ hnew

/-- `decodeFields` succeeds exactly by decoding the fixed little-endian
fields at the fixed offsets and attaching the given sectors. -/
theorem decodeFields_eq (data : List Nat) (sectors : List SectorInfo)
    (d : FlashDevice) (h : decodeFields data sectors = some d) :
    130 ≤ data.length ∧
    readU16LE data 0 = some d.driver_version ∧
    d.name = decodeName data ∧
    readU16LE data 130 = some d.typ ∧
    readU32LE data 132 = some d.start_address ∧
    readU32LE data 136 = some d.device_size ∧
    readU32LE data 140 = some d.page_size ∧
    readU32LE data 144 = some d._reserved ∧
    readU8 data 148 = some d.erased_default_value ∧
    readU32LE data 152 = some d.program_page_timeout ∧
    readU32LE data 156 = some d.erase_sector_timeout ∧
    d.sectors = sectors := by
  rw [decodeFields] at h
  split at h
  · rename_i hlen
    split at h
    · rename_i dv ty sa ds ps rv ev pt et h0 h130 h132 h136 h140 h144 h148 h152 h156
      injection h with h1
      subst h1
      exact ⟨hlen, h0, rfl, h130, h132, h136, h140, h144, h148, h152, h156, rfl⟩
    · exact absurd h (by simp)
  · exact absurd h (by simp)

/-- When `u32` sums do not overflow, a segment that does not mathematically
contain the requested range is passed over by the resolver. -/
theorem read_skip_not_contains (buffer : List Nat) (address size : Nat)
    (haddrsize : address + size < U32) (ph : ProgramHeader)
    (rest : List ProgramHeader)
    (hker : segAddr ph + effSize ph < U32)
    (hnc : ¬ mathContains ph address size) :
    read_elf_bin_data (ph :: rest) buffer address size =
      read_elf_bin_data rest buffer address size := by
  have hmod1 : (segAddr ph + effSize ph) % U32 = segAddr ph + effSize ph :=
    Nat.mod_eq_of_lt hker
  have hmod2 : (address + size) % U32 = address + size :=
    Nat.mod_eq_of_lt haddrsize
  rw [read_elf_bin_data, hmod1, hmod2]
  by_cases h1 : address > segAddr ph + effSize ph
  · rw [if_pos h1]
  · rw [if_neg h1]
    by_cases h2 : address + size ≤ segAddr ph
    · rw [if_pos h2]
    · rw [if_neg h2, if_neg]
      intro hcl
      exact hnc ⟨hcl.1, hcl.2⟩

/-- When `u32` sums do not overflow and the segment's file window is inside
the buffer, the resolver returns the slice of the first containing segment
at `file_offset + (address - segment_address)`. -/
theorem read_step_contains (buffer : List Nat) (address size : Nat)
    (ph : ProgramHeader) (rest : List ProgramHeader)
    (hsize : 0 < size)
    (hc : mathContains ph address size)
    (hker : segAddr ph + effSize ph < U32)
    (hoff : fileOff ph + effSize ph ≤ buffer.length)
    (hoffu : fileOff ph + effSize ph < U32) :
    read_elf_bin_data (ph :: rest) buffer address size =
      .ok (some ((buffer.drop (fileOff ph + (address - segAddr ph))).take size)) := by
  obtain ⟨hge, hle⟩ := hc
  have haddrsize : address + size < U32 := by omega
  have hmod1 : (segAddr ph + effSize ph) % U32 = segAddr ph + effSize ph :=
    Nat.mod_eq_of_lt hker
  have hmod2 : (address + size) % U32 = address + size :=
    Nat.mod_eq_of_lt haddrsize
  have hstart : fileOff ph + address - segAddr ph =
      fileOff ph + (address - segAddr ph) := by omega
  have hmodstart : (fileOff ph + address - segAddr ph) % U32 =
      fileOff ph + (address - segAddr ph) := by
    rw [hstart]
    exact Nat.mod_eq_of_lt (by omega)
  rw [read_elf_bin_data, hmod1, hmod2, hmodstart]
  rw [if_neg (by omega), if_neg (by omega), if_pos ⟨hge, hle⟩,
    if_pos (by omega)]

/-- **C9** (confirmed): every `SectorInfo` in a sequence returned by
`parse_sectors` — and hence in the `sectors` field of every successfully
decoded `FlashDevice` — has `size ≠ 0xFFFFFFFF` and `address ≠ 0xFFFFFFFF`:
no emitted sector entry carries the sentinel value in either field. -/
theorem c9_sector_invariant :
    (∀ (phs : List ProgramHeader) (buffer : List Nat) (address fuel : Nat)
      (l : List SectorInfo),
      parseSectorsFuel phs buffer address fuel = .ret l →
      ∀ s ∈ l, s.size ≠ SECTOR_END ∧ s.address ≠ SECTOR_END) ∧
    (∀ (phs : List ProgramHeader) (buffer : List Nat) (address fuel : Nat)
      (d : FlashDevice),
      newFuel phs buffer address fuel = .ret (.ok d) →
      ∀ s ∈ d.sectors, s.size ≠ SECTOR_END ∧ s.address ≠ SECTOR_END) := by
  have hbase : ∀ (phs : List ProgramHeader) (buffer : List Nat)
      (address fuel : Nat) (l : List SectorInfo),
      parseSectorsFuel phs buffer address fuel = .ret l →
      ∀ s ∈ l, s.size ≠ SECTOR_END ∧ s.address ≠ SECTOR_END := by
    intro phs buffer address fuel l h
    exact parseSectorsAux_ret_inv phs buffer address fuel 160 [] l h (by simp)
  refine ⟨hbase, ?_⟩
  intro phs buffer address fuel d h
  rw [newFuel] at h
  split at h
  · exact absurd h (by simp)
  · exact absurd h (by simp)
  · rename_i sectors hps
    split at h
    · exact absurd h (by simp)
    · exact absurd h (by simp)
    · split at h
      · rename_i d0 hdec
        have hd : d0 = d := by
          injection h with h1
          injection h1 with h2
        subst hd
        have hsec := (decodeFields_eq _ _ _ hdec).2.2.2.2.2.2.2.2.2.2.2
        rw [hsec]
        exact hbase phs buffer address fuel sectors hps
      · exact absurd h (by simp)

/-- Witness for C9: on the `ACME_FLASH` image the loop returns the single
sector `{address: 0x0800_0000, size: 0x400}` and both of its fields differ
from the sentinel. -/
theorem c9_sector_invariant_witness :
    parseSectorsFuel acmeSegs acmeBuf 0 10 = .ret [⟨134217728, 1024⟩] ∧
    ∀ s ∈ [(⟨134217728, 1024⟩ : SectorInfo)],
      s.size ≠ SECTOR_END ∧ s.address ≠ SECTOR_END :=
  ⟨by decide, c9_sector_invariant.1 acmeSegs acmeBuf 0 10 _ (by decide)⟩

/-- **C10** (confirmed): when every segment's file window fits in the buffer
and neither `segment_address + segment_size` nor `address + size` overflows
`u32`, `read_elf_bin_data` is total: it returns `None` or an in-bounds
slice of exactly `size` bytes of the buffer, and never panics. -/
theorem c10_read_total (phs : List ProgramHeader) (buffer : List Nat)
    (address size : Nat)
    (hwf : ∀ ph ∈ phs, fileOff ph + effSize ph ≤ buffer.length ∧
      segAddr ph + effSize ph < U32)
    (hsum : address + size < U32) :
    read_elf_bin_data phs buffer address size ≠ .error () ∧
    ∀ w, read_elf_bin_data phs buffer address size = .ok (some w) →
      w.length = size ∧
      ∃ st, st + size ≤ buffer.length ∧ w = (buffer.drop st).take size := by
  constructor
  · exact read_no_error phs buffer address size
      (fun ph h => (hwf ph h).1) (le_of_lt hsum)
  · intro w hw
    obtain ⟨st, h1, h2, h3⟩ := read_some_shape phs buffer address size w hw
    exact ⟨h3, st, h1, h2⟩

/-- Witness for C10 at a concrete well-formed segment and request. -/
theorem c10_read_total_witness :
    (∀ ph ∈ [(⟨0, 0, 16, 16⟩ : ProgramHeader)],
      fileOff ph + effSize ph ≤ (List.replicate 16 7).length ∧
      segAddr ph + effSize ph < U32) ∧
    4 + 8 < U32 ∧
    read_elf_bin_data [⟨0, 0, 16, 16⟩] (List.replicate 16 7) 4 8 ≠ .error () :=
  ⟨by decide, by decide,
    (c10_read_total [⟨0, 0, 16, 16⟩] (List.replicate 16 7) 4 8
      (by decide) (by decide)).1⟩

/-- **C1 counterexample**: on `c1Buf` the first sector window resolves to
bytes decoding to `size = 0xFFFFFFFF`, `address = 0` — only one of the two
fields is the sentinel, so the claim requires the reader to emit a
`SectorInfo` and continue — yet `parse_sectors` stops at once and returns
the empty sequence. -/
theorem c1_counterexample :
    read_elf_bin_data c1Segs c1Buf 160 8 =
      .ok (some [255, 255, 255, 255, 0, 0, 0, 0]) ∧
    readU32LE [255, 255, 255, 255, 0, 0, 0, 0] 0 = some SECTOR_END ∧
    readU32LE [255, 255, 255, 255, 0, 0, 0, 0] 4 = some 0 ∧
    ¬(SECTOR_END = SECTOR_END ∧ (0 : Nat) = SECTOR_END) ∧
    parseSectorsFuel c1Segs c1Buf 0 5 = .ret [] := by
  refine ⟨by decide, by decide, by decide, by decide, by decide⟩

/-- **C1 (amended)**: for every resolved 8-byte sector window, the reader
stops without emitting an entry exactly when **at least one** of the decoded
fields (`size` at byte 0, `address` at byte 4) equals `0xFFFFFFFF`;
otherwise it emits `SectorInfo { address, size }`, advances the offset by 8,
and continues. -/
theorem c1_amended (phs : List ProgramHeader) (buffer : List Nat)
    (address fuel offset : Nat) (acc : List SectorInfo) (data : List Nat)
    (sz ad : Nat)
    (hread : read_elf_bin_data phs buffer ((address + offset) % U32) 8 =
      .ok (some data))
    (h0 : readU32LE data 0 = some sz) (h4 : readU32LE data 4 = some ad) :
    ((sz = SECTOR_END ∨ ad = SECTOR_END) →
      parseSectorsAux phs buffer address (fuel + 1) offset acc = .ret acc) ∧
    (sz ≠ SECTOR_END ∧ ad ≠ SECTOR_END →
      parseSectorsAux phs buffer address (fuel + 1) offset acc =
        parseSectorsAux phs buffer address fuel ((offset + 8) % U32)
          (acc ++ [⟨ad, sz⟩])) := by
  have hnew := SectorInfo.new_eq data sz ad h0 h4
  constructor
  · intro hor
    have hstop : SectorInfo.new data = .ok none := by
      rw [hnew, if_neg (by tauto)]
    simp only [parseSectorsAux, hread, hstop]
  · intro hand
    have hgo : SectorInfo.new data = .ok (some ⟨ad, sz⟩) := by
      rw [hnew, if_pos hand]
    simp only [parseSectorsAux, hread, hgo]

/-- Witness for the amended C1: the `ACME_FLASH` sector entry
`{size: 0x400, address: 0x0800_0000}` has neither field equal to the
sentinel, and the loop emits it and advances the offset by 8. -/
theorem c1_amended_witness :
    parseSectorsAux acmeSegs acmeBuf 0 (1 + 1) 160 [] =
      parseSectorsAux acmeSegs acmeBuf 0 1 ((160 + 8) % U32)
        ([] ++ [⟨134217728, 1024⟩]) :=
  (c1_amended acmeSegs acmeBuf 0 1 160 [] [0, 4, 0, 0, 0, 0, 0, 8]
    1024 134217728 (by decide) (by decide) (by decide)).2 (by decide)

/-- **C2 counterexample**: with segment `c2Segs` the 160-byte header window
at address 0 is not contained in any segment (the resolver returns `None`
and no segment mathematically contains it), so the claim requires
`FlashDevice::new` to return the `ReadBinaryInfoFail` error — but the
sector scan that `new` runs first resolves the window at offset 160 to file
offset 100 of an empty buffer and panics, so `new` panics instead of
returning the error; hence this is not the only failure the decoder can
produce. -/
theorem c2_counterexample :
    read_elf_bin_data c2Segs [] 0 160 = .ok none ∧
    (∀ ph ∈ c2Segs, ¬ mathContains ph 0 160) ∧
    newFuel c2Segs [] 0 5 = .panic := by
  refine ⟨by decide, by decide, by decide⟩

/-- **C2 (amended)**: whenever the sector scan completes normally and the
160-byte header window at the base address cannot be resolved,
`FlashDevice::new` returns the `ReadBinaryInfoFail` error whose payload is
the formatted message carrying the requested address and the size 160, and
no record is returned; moreover `ReadBinaryInfoFail` with that payload is
the only error value `new` can ever return. -/
theorem c2_amended :
    (∀ (phs : List ProgramHeader) (buffer : List Nat) (address fuel : Nat)
      (s : List SectorInfo),
      parseSectorsFuel phs buffer address fuel = .ret s →
      read_elf_bin_data phs buffer address 160 = .ok none →
      newFuel phs buffer address fuel =
        .ret (.error (.ReadBinaryInfoFail (readFailMsg address)))) ∧
    (∀ (phs : List ProgramHeader) (buffer : List Nat) (address fuel : Nat)
      (e : ArmError),
      newFuel phs buffer address fuel = .ret (.error e) →
      e = .ReadBinaryInfoFail (readFailMsg address)) := by
  constructor
  · intro phs buffer address fuel s hps hread
    simp only [newFuel, hps, hread]
  · intro phs buffer address fuel e h
    rw [newFuel] at h
    split at h
    · exact absurd h (by simp)
    · exact absurd h (by simp)
    · split at h
      · exact absurd h (by simp)
      · injection h with h1
        injection h1 with h2
        exact h2.symm
      · split at h
        · exact absurd h (by simp)
        · exact absurd h (by simp)

/-- Witness for the amended C2: with no segments at all the scan returns the
empty sector list, the header window is unresolvable, and `new` returns
`ReadBinaryInfoFail "Read address: 0x00000000, size: 160 bytes"`. -/
theorem c2_amended_witness :
    parseSectorsFuel [] [] 0 1 = .ret [] ∧
    read_elf_bin_data [] [] 0 160 = .ok none ∧
    newFuel [] [] 0 1 =
      .ret (.error (.ReadBinaryInfoFail "Read address: 0x00000000, size: 160 bytes")) := by
  refine ⟨by decide, by decide, ?_⟩
  have h := c2_amended.1 [] [] 0 1 [] (by decide) (by decide)
  have hm : readFailMsg 0 = "Read address: 0x00000000, size: 160 bytes" := by decide
  rw [hm] at h
  exact h

/-- **C3 counterexample**: the range `[0xFFFFFFF8, 0x100000000)` lies fully
inside the segment `c3Ph` (`[0xFFFFFFF0, 0x100000010)` mathematically), yet
the resolver returns `None`: `segment_address + segment_size` wraps to 16 in
`u32`, so the first skip test `address > segment_address + segment_size`
fires and the containing segment is skipped. -/
theorem c3_counterexample :
    mathContains c3Ph 4294967288 8 ∧ 0 < 8 ∧
    read_elf_bin_data [c3Ph] [] 4294967288 8 = .ok none := by
  refine ⟨by decide, by decide, by decide⟩

/-- **C3 (amended)**: for every segment list, buffer, address and positive
size such that `[address, address + size)` lies fully inside some segment —
provided no segment's `segment_address + segment_size` overflows `u32`, and
the first containing segment's file window `file_offset + segment_size`
neither overflows `u32` nor exceeds the buffer — the resolver returns
exactly the `size` bytes of the buffer starting at file offset
`file_offset + (address - segment_address)` of the first containing segment
in program-header order. -/
theorem c3_amended (buffer : List Nat) (address size : Nat)
    (pre post : List ProgramHeader) (ph0 : ProgramHeader)
    (hsize : 0 < size)
    (hpre : ∀ ph ∈ pre, ¬ mathContains ph address size)
    (hc : mathContains ph0 address size)
    (hker : ∀ ph ∈ pre ++ ph0 :: post, segAddr ph + effSize ph < U32)
    (hoff : fileOff ph0 + effSize ph0 ≤ buffer.length)
    (hoffu : fileOff ph0 + effSize ph0 < U32) :
    read_elf_bin_data (pre ++ ph0 :: post) buffer address size =
      .ok (some ((buffer.drop (fileOff ph0 + (address - segAddr ph0))).take size)) := by
  have haddrsize : address + size < U32 :=
    lt_of_le_of_lt hc.2 (hker ph0 (by simp))
  revert hpre hker
  induction pre with
  | nil =>
    intro hpre hker
    simpa using read_step_contains buffer address size ph0 post hsize hc
      (hker ph0 (by simp)) hoff hoffu
  | cons ph pre ih =>
    intro hpre hker
    rw [List.cons_append,
      read_skip_not_contains buffer address size haddrsize ph _
        (hker ph (by simp)) (hpre ph (by simp))]
    exact ih (fun q hq => hpre q (by simp [hq]))
      (fun q hq => hker q (by simp [hq]))

/-- Witness for the amended C3 on a concrete two-segment list: the request
`[20, 28)` is contained in the second segment only, and the returned bytes
are the 8 buffer bytes at `file_offset + (address - segment_address)
= 4 + (20 - 16) = 8`. -/
theorem c3_amended_witness :
    read_elf_bin_data [⟨0, 0, 8, 8⟩, ⟨16, 4, 16, 16⟩]
        [0, 1, 2, 3, 4, 5, 6, 7, 8, 9, 10, 11, 12, 13, 14, 15, 16, 17, 18, 19]
        20 8 =
      .ok (some [8, 9, 10, 11, 12, 13, 14, 15]) := by
  have h := c3_amended
    [0, 1, 2, 3, 4, 5, 6, 7, 8, 9, 10, 11, 12, 13, 14, 15, 16, 17, 18, 19]
    20 8 [⟨0, 0, 8, 8⟩] [] ⟨16, 4, 16, 16⟩
    (by decide) (by decide) (by decide) (by decide) (by decide) (by decide)
  simpa using h

/-- **C4 counterexample**: the request `[0xFFFFFFFE, 0x100000002)` is not
mathematically contained in the lone segment `c4Ph` (its end `0x100000002`
exceeds the segment end `0xFFFFFFFF`), so the claim requires `None` — yet
`address + size` wraps to 2 in `u32`, the containment test passes, and the
resolver returns 4 bytes (`List.replicate 4 0 = [0,0,0,0]`) of the backing
buffer instead of rejecting the partial overlap. -/
theorem c4_counterexample :
    ¬ mathContains c4Ph 4294967294 4 ∧
    read_elf_bin_data [c4Ph] c4Buf 4294967294 4 =
      .ok (some (List.replicate 4 0)) := by
  constructor
  · decide
  · have hlen : c4Buf.length = 4294967298 := by
      rw [show c4Buf = List.replicate 4294967298 0 from rfl,
        List.length_replicate]
    rw [read_elf_bin_data]
    rw [if_neg (by decide), if_neg (by decide), if_pos (by decide)]
    have hcond : (fileOff c4Ph + 4294967294 - segAddr c4Ph) % U32 + 4 ≤
        c4Buf.length := by
      rw [hlen]; decide
    rw [if_pos hcond]
    have harg : (fileOff c4Ph + 4294967294 - segAddr c4Ph) % U32 =
        4294967294 := by decide
    rw [harg]
    show Except.ok (some (((List.replicate 4294967298 0).drop 4294967294).take 4)) = _
    rw [List.drop_replicate, List.take_replicate]
    norm_num

/-- **C4 (amended)**: for every segment list, buffer, address and positive
size such that `[address, address + size)` is not fully contained in any
single segment — provided `address + size` and every segment's
`segment_address + segment_size` do not overflow `u32` — the resolver
returns `None`; partial overlaps are rejected, never clipped. -/
theorem c4_amended (phs : List ProgramHeader) (buffer : List Nat)
    (address size : Nat) (_hsize : 0 < size)
    (hnc : ∀ ph ∈ phs, ¬ mathContains ph address size)
    (hker : ∀ ph ∈ phs, segAddr ph + effSize ph < U32)
    (haddrsize : address + size < U32) :
    read_elf_bin_data phs buffer address size = .ok none := by
  induction phs with
  | nil => rfl
  | cons ph rest ih =>
    rw [read_skip_not_contains buffer address size haddrsize ph rest
      (hker ph (by simp)) (hnc ph (by simp))]
    exact ih (fun q hq => hnc q (by simp [hq]))
      (fun q hq => hker q (by simp [hq]))

/-- Witness for the amended C4: the range `[4, 12)` partially overlaps the
segment `[0, 8)` and the resolver rejects it with `None`. -/
theorem c4_amended_witness :
    (∀ ph ∈ [(⟨0, 0, 8, 8⟩ : ProgramHeader)], ¬ mathContains ph 4 8) ∧
    read_elf_bin_data [⟨0, 0, 8, 8⟩] [] 4 8 = .ok none :=
  ⟨by decide,
    c4_amended [⟨0, 0, 8, 8⟩] [] 4 8 (by decide) (by decide) (by decide)
      (by decide)⟩

/-- **C5** (confirmed): every successfully decoded header takes its numeric
fields from the little-endian reads at the fixed offsets (driver_version@0
u16, typ@130 u16, start_address@132, device_size@136, page_size@140,
reserved@144, erased_default_value@148 u8, program_page_timeout@152,
erase_sector_timeout@156), `FlashDevice::new` feeds the resolved window and
the parsed sectors to exactly that decode, and on the spec's `ACME_FLASH`
bytes the result has `name = "ACME_FLASH"`, one sector, and
`sectors[0] = {address: 0x0800_0000, size: 0x400}`. -/
theorem c5_fields :
    (∀ (data : List Nat) (sectors : List SectorInfo) (d : FlashDevice),
      decodeFields data sectors = some d →
      readU16LE data 0 = some d.driver_version ∧
      readU16LE data 130 = some d.typ ∧
      readU32LE data 132 = some d.start_address ∧
      readU32LE data 136 = some d.device_size ∧
      readU32LE data 140 = some d.page_size ∧
      readU32LE data 144 = some d._reserved ∧
      readU8 data 148 = some d.erased_default_value ∧
      readU32LE data 152 = some d.program_page_timeout ∧
      readU32LE data 156 = some d.erase_sector_timeout) ∧
    (∀ (phs : List ProgramHeader) (buffer : List Nat) (address fuel : Nat)
      (data : List Nat) (d : FlashDevice),
      read_elf_bin_data phs buffer address 160 = .ok (some data) →
      newFuel phs buffer address fuel = .ret (.ok d) →
      decodeFields data d.sectors = some d) ∧
    (newFuel acmeSegs acmeBuf 0 10 = .ret (.ok acmeDevice) ∧
      acmeDevice.name = "ACME_FLASH" ∧
      acmeDevice.sectors.length = 1 ∧
      acmeDevice.sectors = [⟨134217728, 1024⟩]) := by
  refine ⟨?_, ?_, by decide, by decide, by decide, by decide⟩
  · intro data sectors d h
    have he := decodeFields_eq data sectors d h
    exact ⟨he.2.1, he.2.2.2.1, he.2.2.2.2.1, he.2.2.2.2.2.1,
      he.2.2.2.2.2.2.1, he.2.2.2.2.2.2.2.1, he.2.2.2.2.2.2.2.2.1,
      he.2.2.2.2.2.2.2.2.2.1, he.2.2.2.2.2.2.2.2.2.2.1⟩
  · intro phs buffer address fuel data d hread hnew
    rw [newFuel] at hnew
    split at hnew
    · exact absurd hnew (by simp)
    · exact absurd hnew (by simp)
    · rename_i sectors hps
      rw [hread] at hnew
      split at hnew
      · rename_i heq
        exact absurd heq (by simp)
      · rename_i heq
        exact absurd heq (by simp)
      · rename_i data2 heq
        have hdd : data2 = data := by
          injection heq with h1
          injection h1 with h2
          exact h2.symm
        subst hdd
        split at hnew
        · rename_i d0 hdec
          have hd : d0 = d := by
            injection hnew with h1
            injection h1 with h2
          subst hd
          have hsec := (decodeFields_eq _ _ _ hdec).2.2.2.2.2.2.2.2.2.2.2
          rw [hsec]
          exact hdec
        · exact absurd hnew (by simp)

/-- Witness for C5: the decode of the ACME header window yields
`acmeDevice`, whose `driver_version` is the little-endian `u16` at offset
0 of that window. -/
theorem c5_fields_witness :
    decodeFields (acmeBuf.take 160) [⟨134217728, 1024⟩] = some acmeDevice ∧
    readU16LE (acmeBuf.take 160) 0 = some acmeDevice.driver_version :=
  ⟨by decide,
    (c5_fields.1 (acmeBuf.take 160) [⟨134217728, 1024⟩] acmeDevice
      (by decide)).1⟩

/-- **C6 counterexample**: `c6Data` has no zero byte among its 128 name
bytes (64 copies of the two-byte sequence `C2 A0`), so the claim promises a
128-character name — but the decoded name has only 64 characters, one per
two-byte UTF-8 sequence. -/
theorem c6_counterexample :
    (∀ b ∈ (c6Data.drop 2).take 128, b ≠ 0) ∧
    nameLength c6Data = 128 ∧
    (decodeFields c6Data []).map (fun d => d.name.length) = some 64 := by
  refine ⟨by decide, by decide, by decide⟩

/-- **C6 (amended)**: the decoded name is the lossy text of the bytes from
offset 2 up to (but excluding) the first zero byte among bytes 2..130 — all
128 name bytes if none is zero — with invalid sequences replaced by
replacement characters instead of failing; the scanned length never exceeds
128 and the decoded name has **at most** 128 characters (no out-of-bounds
read), with exactly 128 characters when every byte decodes to one character,
as in the all-`0xFF` name window `c6FFData`. -/
theorem c6_amended :
    (∀ (data : List Nat) (sectors : List SectorInfo) (d : FlashDevice),
      decodeFields data sectors = some d →
      d.name = lossyString ((data.drop 2).take (nameLength data)) ∧
      nameLength data ≤ 128 ∧
      d.name.length ≤ 128) ∧
    (decodeFields c6FFData []).map (fun d => d.name.length) = some 128 := by
  constructor
  · intro data sectors d h
    have hname0 := (decodeFields_eq data sectors d h).2.2.1
    have hname : d.name = lossyString ((data.drop 2).take (nameLength data)) := by
      rw [hname0]; rfl
    have hmin : nameLength data ≤ 128 := by
      simp only [nameLength]
      exact min_le_left _ _
    refine ⟨hname, hmin, ?_⟩
    rw [hname]
    have hlen : (lossyString ((data.drop 2).take (nameLength data))).length =
        (utf8Lossy ((data.drop 2).take (nameLength data))).length := by
      simp [lossyString, String.length]
    rw [hlen]
    have h1 := utf8LossyFuel_length_le
      ((data.drop 2).take (nameLength data)).length
      ((data.drop 2).take (nameLength data))
    have h2 : ((data.drop 2).take (nameLength data)).length ≤ 128 := by
      rw [List.length_take]
      omega
    simp only [utf8Lossy]
    omega
  · decide

/-- Witness for the amended C6 on the ACME header window: its name is the
lossy decode of the first 10 name bytes and is at most 128 characters
long. -/
theorem c6_amended_witness :
    decodeFields (acmeBuf.take 160) [⟨134217728, 1024⟩] = some acmeDevice ∧
    acmeDevice.name =
      lossyString (((acmeBuf.take 160).drop 2).take (nameLength (acmeBuf.take 160))) ∧
    acmeDevice.name.length ≤ 128 :=
  ⟨by decide,
    (c6_amended.1 (acmeBuf.take 160) [⟨134217728, 1024⟩] acmeDevice
      (by decide)).1,
    (c6_amended.1 (acmeBuf.take 160) [⟨134217728, 1024⟩] acmeDevice
      (by decide)).2.2⟩

/-- With every segment's file window inside the buffer and an 8-aligned
base address, no iteration of the sector loop can panic. -/
theorem parseSectorsAux_no_panic (phs : List ProgramHeader) (buffer : List Nat)
    (address : Nat)
    (hwf : ∀ ph ∈ phs, fileOff ph + effSize ph ≤ buffer.length)
    (halign : address % 8 = 0) :
    ∀ (fuel offset : Nat) (acc : List SectorInfo), offset % 8 = 0 →
      parseSectorsAux phs buffer address fuel offset acc ≠ .panic := by
  intro fuel
  induction fuel with
  | zero => intro offset acc _; simp [parseSectorsAux]
  | succ fuel ih =>
    intro offset acc hoff
    have haddrlt : (address + offset) % U32 < U32 :=
      Nat.mod_lt _ (by decide)
    have hsum : (address + offset) % U32 + 8 ≤ U32 := by
      have h8 : ((address + offset) % U32) % 8 = 0 := by
        simp only [U32] at *
        omega
      simp only [U32] at *
      omega
    rw [parseSectorsAux]
    cases hread : read_elf_bin_data phs buffer ((address + offset) % U32) 8 with
    | error e =>
      cases e
      exact absurd hread (read_no_error phs buffer _ 8 hwf hsum)
    | ok o =>
      cases o with
      | none => simp
      | some data =>
        obtain ⟨st, _, _, hlen⟩ := read_some_shape phs buffer _ 8 data hread
        cases hnew : SectorInfo.new data with
        | error e =>
          cases e
          exact absurd hnew (SectorInfo.new_no_error data hlen)
        | ok o2 =>
          cases o2 with
          | none => simp [hnew]
          | some s =>
            have hoff8 : ((offset + 8) % U32) % 8 = 0 := by
              simp only [U32]
              omega
            simp only [hnew]
            exact ih ((offset + 8) % U32) (acc ++ [s]) hoff8

/-- **C7 (amended)**: `parse_sectors` treats an unresolvable 8-byte window
as normal end-of-data, stopping and returning exactly the sectors collected
so far, and a table whose terminator sits immediately at offset 160 yields
the empty sector sequence; and — provided every segment's file window lies
inside the buffer and the base address is 8-byte aligned — the reader never
panics. -/
theorem c7_parse_no_fail :
    (∀ (phs : List ProgramHeader) (buffer : List Nat) (address : Nat),
      (∀ ph ∈ phs, fileOff ph + effSize ph ≤ buffer.length) →
      address % 8 = 0 →
      ∀ fuel, parseSectorsFuel phs buffer address fuel ≠ .panic) ∧
    (∀ (phs : List ProgramHeader) (buffer : List Nat)
      (address fuel offset : Nat) (acc : List SectorInfo),
      read_elf_bin_data phs buffer ((address + offset) % U32) 8 = .ok none →
      parseSectorsAux phs buffer address (fuel + 1) offset acc = .ret acc) ∧
    (∀ (phs : List ProgramHeader) (buffer : List Nat) (address fuel : Nat)
      (data : List Nat),
      read_elf_bin_data phs buffer ((address + 160) % U32) 8 = .ok (some data) →
      readU32LE data 0 = some SECTOR_END →
      readU32LE data 4 = some SECTOR_END →
      parseSectorsFuel phs buffer address (fuel + 1) = .ret []) := by
  refine ⟨?_, ?_, ?_⟩
  · intro phs buffer address hwf halign fuel
    exact parseSectorsAux_no_panic phs buffer address hwf halign fuel 160 []
      (by decide)
  · intro phs buffer address fuel offset acc hread
    simp only [parseSectorsAux, hread]
  · intro phs buffer address fuel data hread h0 h4
    have hstop : SectorInfo.new data = .ok none := by
      rw [SectorInfo.new_eq data SECTOR_END SECTOR_END h0 h4,
        if_neg (by tauto)]
    simp only [parseSectorsFuel, parseSectorsAux, hread, hstop]

/-- Witness for the amended C7: the table with the terminator immediately at
offset 160 resolves its first window to eight `0xFF` bytes and the reader
returns the empty sequence. -/
theorem c7_parse_no_fail_witness :
    read_elf_bin_data sentSegs sentBuf ((0 + 160) % U32) 8 =
      .ok (some (List.replicate 8 255)) ∧
    parseSectorsFuel sentSegs sentBuf 0 (0 + 1) = .ret [] :=
  ⟨by decide,
    c7_parse_no_fail.2.2 sentSegs sentBuf 0 0 (List.replicate 8 255)
      (by decide) (by decide) (by decide)⟩

/-- **C7 counterexample**: with the segment `c2Segs` (whose file window lies
beyond the empty buffer) the reader's very first window resolution panics,
so `parse_sectors` fails instead of returning a sequence. -/
theorem c7_counterexample :
    read_elf_bin_data c2Segs [] 160 8 = .error () ∧
    parseSectorsFuel c2Segs [] 0 5 = .panic := by
  refine ⟨by decide, by decide⟩

/-- If some step of the sector loop stops (window unresolvable, terminator,
or panic), the loop finishes within that many iterations. -/
theorem parseSectorsAux_term_of_stop (phs : List ProgramHeader)
    (buffer : List Nat) (address : Nat) :
    ∀ (k offset : Nat) (acc : List SectorInfo),
      sectorStep phs buffer address ((offset + 8 * k) % U32) = none →
      parseSectorsAux phs buffer address (k + 1) offset acc ≠
        .out_of_fuel := by
  intro k
  induction k with
  | zero =>
    intro offset acc hstop
    have heq : (address + (offset + 8 * 0) % U32) % U32 =
        (address + offset) % U32 := by
      simp only [U32]
      omega
    rw [sectorStep, heq] at hstop
    rw [parseSectorsAux]
    cases hread : read_elf_bin_data phs buffer ((address + offset) % U32) 8 with
    | error e => simp
    | ok o =>
      cases o with
      | none => simp
      | some data =>
        rw [hread] at hstop
        cases hnew : SectorInfo.new data with
        | error e => simp [hnew]
        | ok o2 =>
          cases o2 with
          | none => simp [hnew]
          | some s =>
            simp only [hnew] at hstop
            exact absurd hstop (by simp)
  | succ k ih =>
    intro offset acc hstop
    rw [parseSectorsAux]
    cases hread : read_elf_bin_data phs buffer ((address + offset) % U32) 8 with
    | error e => simp
    | ok o =>
      cases o with
      | none => simp
      | some data =>
        cases hnew : SectorInfo.new data with
        | error e => simp [hnew]
        | ok o2 =>
          cases o2 with
          | none => simp [hnew]
          | some s =>
            simp only [hnew]
            have hshift : (((offset + 8) % U32) + 8 * k) % U32 =
                (offset + 8 * (k + 1)) % U32 := by
              simp only [U32]
              omega
            exact ih ((offset + 8) % U32) (acc ++ [s])
              (by rw [hshift]; exact hstop)

/-- Every 8-byte window the diverging input can ever request resolves to
eight zero bytes, so the sector loop of `parse_sectors` never stops on
`[c4Ph]`/`c8Buf` at base address 4: whatever the fuel, it runs out. -/
theorem c8_div_aux :
    ∀ (fuel offset : Nat) (acc : List SectorInfo), offset % 8 = 0 →
      parseSectorsAux [c4Ph] c8Buf 4 fuel offset acc = .out_of_fuel := by
  intro fuel
  induction fuel with
  | zero => intro offset acc _; rfl
  | succ fuel ih =>
    intro offset acc hoff
    have ha : (4 + offset) % U32 < U32 := Nat.mod_lt _ (by decide)
    have ha8 : ((4 + offset) % U32) % 8 = 4 := by
      simp only [U32] at *
      omega
    have hlen : c8Buf.length = 4294967304 := by
      rw [show c8Buf = List.replicate 4294967304 0 from rfl,
        List.length_replicate]
    have hread : read_elf_bin_data [c4Ph] c8Buf ((4 + offset) % U32) 8 =
        .ok (some (List.replicate 8 0)) := by
      set a := (4 + offset) % U32 with hadef
      have e1 : (segAddr c4Ph + effSize c4Ph) % U32 = 4294967295 := by decide
      have e2 : segAddr c4Ph = 0 := by decide
      have e3 : fileOff c4Ph = 0 := by decide
      simp only [U32] at ha ha8
      rw [read_elf_bin_data, e1, e2, e3]
      have es : (0 + a - 0) % U32 = a := by
        simp only [U32]
        omega
      rw [es, hlen]
      have hb2 : ¬((a + 8) % U32 ≤ 0) := by
        simp only [U32]
        omega
      have hb3 : 0 ≤ a ∧ (a + 8) % U32 ≤ 4294967295 := by
        refine ⟨Nat.zero_le a, ?_⟩
        simp only [U32]
        omega
      rw [if_neg (by omega), if_neg hb2, if_pos hb3, if_pos (by omega)]
      rw [show c8Buf = List.replicate 4294967304 0 from rfl,
        List.drop_replicate, List.take_replicate]
      have hm : min 8 (4294967304 - a) = 8 := by omega
      rw [hm]
    have hnew : SectorInfo.new (List.replicate 8 0) = .ok (some ⟨0, 0⟩) := by
      decide
    simp only [parseSectorsAux, hread, hnew]
    exact ih ((offset + 8) % U32) (acc ++ [⟨0, 0⟩])
      (by simp only [U32]; omega)

/-- **C8 counterexample**: with the full-size segment `c4Ph`, the
`2^32 + 8`-byte zero buffer `c8Buf` and base address 4, every window the
loop requests resolves and decodes to the non-terminator sector `{0, 0}`
(the wrapped offsets never hit an unresolvable address), so `parse_sectors`
runs forever: no amount of fuel completes it. -/
theorem c8_counterexample :
    ¬ ∃ fuel : Nat, parseSectorsFuel [c4Ph] c8Buf 4 fuel ≠ .out_of_fuel := by
  rintro ⟨fuel, hne⟩
  exact hne (c8_div_aux fuel 160 [] (by decide))

/-- **C8 (amended)**: every iteration of the sector loop either stops or
advances the offset by 8 (mod `2^32`), and the loop terminates whenever
some reachable window — at an offset of the form `160 + 8k` (mod `2^32`) —
fails to resolve, decodes to a terminator, or panics; termination is *not*
unconditional, since a segment can cover every reachable window (see the
counterexample). -/
theorem c8_termination :
    (∀ (phs : List ProgramHeader) (buffer : List Nat)
      (address offset fuel : Nat) (acc : List SectorInfo) (s : SectorInfo),
      sectorStep phs buffer address offset = some s →
      parseSectorsAux phs buffer address (fuel + 1) offset acc =
        parseSectorsAux phs buffer address fuel ((offset + 8) % U32)
          (acc ++ [s])) ∧
    (∀ (phs : List ProgramHeader) (buffer : List Nat) (address k : Nat),
      sectorStep phs buffer address ((160 + 8 * k) % U32) = none →
      parseSectorsFuel phs buffer address (k + 1) ≠ .out_of_fuel) := by
  constructor
  · intro phs buffer address offset fuel acc s hs
    rw [sectorStep] at hs
    cases hread : read_elf_bin_data phs buffer ((address + offset) % U32) 8 with
    | error e =>
      rw [hread] at hs
      simp at hs
    | ok o =>
      cases o with
      | none =>
        rw [hread] at hs
        simp at hs
      | some data =>
        rw [hread] at hs
        cases hnew : SectorInfo.new data with
        | error e =>
          simp only [hnew] at hs
          exact absurd hs (by simp)
        | ok o2 =>
          cases o2 with
          | none =>
            simp only [hnew] at hs
            exact absurd hs (by simp)
          | some s2 =>
            simp only [hnew] at hs
            have hss : s2 = s := by
              injection hs
            subst hss
            simp only [parseSectorsAux, hread, hnew]
  · intro phs buffer address k hstop
    exact parseSectorsAux_term_of_stop phs buffer address k 160 [] hstop

/-- Witness for the amended C8: with no segments the very first window
(`k = 0`) is unresolvable and the loop finishes with one unit of fuel. -/
theorem c8_termination_witness :
    sectorStep [] [] 0 ((160 + 8 * 0) % U32) = none ∧
    parseSectorsFuel [] [] 0 (0 + 1) ≠ .out_of_fuel :=
  ⟨by decide, c8_termination.2 [] [] 0 0 (by decide)⟩
